import Mathlib

/-
Verification development for aux_tasks/synthetic/run_synthetic.py.

The embedding works over exact rationals instead of floating point; all
matrices are total functions on Fin-index types.  External collaborators of
the training step that live outside this file of the repository
(estimates.naive_inverse_covariance_matrix, estimates.lissa_inverse_covariance_matrix,
utils.compute_max_feature_norm, utils.sample_discrete_states, the optax
optimizer objects, and the jax PRNG) are abstracted as function-valued
parameters of the step environment: every theorem below holds for all
instantiations of those parameters, hence in particular for the real ones.
The jax PRNG key is modelled as a natural number threaded in program order.
-/

abbrev Key := ℕ

/-- Model of jax.random.split: returns the pair (subkey, new key). -/
def krSplit (k : Key) : Key × Key := (2 * k + 1, 2 * k + 2)

/-- checkpoint_period = max(num_epochs // 10, 100_000)  (train, run_synthetic.py). -/
def checkpointPeriod (numEpochs : ℕ) : ℕ := max (numEpochs / 10) 100000

/-- log_period = max(1_000, num_epochs // 1_000)  (train, run_synthetic.py). -/
def logPeriod (numEpochs : ℕ) : ℕ := max 1000 (numEpochs / 1000)

/-- State of the training loop of train().  cur is the live training state
(the variable_kwargs dict); localPhi is the value of the Python local Phi,
which the checkpoint hook closure reads and which is reassigned only at
logging steps; snapshots is the Phis list; saved records the
(step, Phi) pairs passed to chkpt_manager.save. -/
structure LoopSt (β α : Type) where
  cur : β
  localPhi : α
  snapshots : List α
  saved : List (ℕ × α)

/-- One iteration of the training loop at step number n: run the step,
then (if n is a logging step) reassign the local Phi and append a snapshot,
then (if n is a checkpoint step) save (n, local Phi). -/
def loopBody (step : β → Except String β) (proj : β → α) (lp cp : ℕ)
    (st : LoopSt β α) (n : ℕ) : Except String (LoopSt β α) :=
  match step st.cur with
  | .error e => .error e
  | .ok v =>
    let lphi := if n % lp = 0 then proj v else st.localPhi
    let snaps := if n % lp = 0 then st.snapshots ++ [proj v] else st.snapshots
    let saved := if n % cp = 0 then st.saved ++ [(n, lphi)] else st.saved
    .ok ⟨v, lphi, snaps, saved⟩

/-- The loop of train(): steps 1..n in order (initial_step = 0). -/
def runLoop (step : β → Except String β) (proj : β → α) (lp cp : ℕ)
    (st0 : LoopSt β α) : ℕ → Except String (LoopSt β α)
  | 0 => .ok st0
  | n + 1 =>
    match runLoop step proj lp cp st0 n with
    | .error e => .error e
    | .ok st => loopBody step proj lp cp st (n + 1)

/-- Optimizer dispatch of train(): sgd and adam are accepted, anything else
raises ValueError before the loop starts. -/
def selectOptimizer (sgdImpl adamImpl : ω) (name : String) : Except String ω :=
  if name = "sgd" then .ok sgdImpl
  else if name = "adam" then .ok adamImpl
  else .error ("Unknown optimizer " ++ name ++ ".")

/-- Embedding of train(): select the optimizer, build the initial state
(Phi is copied, the snapshot list starts with the initial Phi), then run
steps 1..numEpochs. -/
def trainE (sgdImpl adamImpl : ω) (optName : String)
    (stepOf : ω → β → Except String β) (proj : β → α)
    (numEpochs : ℕ) (st0 : β) : Except String (LoopSt β α) :=
  match selectOptimizer sgdImpl adamImpl optName with
  | .error e => .error e
  | .ok opt =>
    runLoop (stepOf opt) proj (logPeriod numEpochs) (checkpointPeriod numEpochs)
      ⟨st0, proj st0, [proj st0], []⟩ numEpochs

/-- Training run over an abstract step function on naturals; used to trace
which value the checkpoint hook saves. -/
def trainNat (f : ℕ → ℕ) (numEpochs x : ℕ) : Except String (LoopSt ℕ ℕ) :=
  trainE () () "sgd" (fun _ st => .ok (f st)) id numEpochs x

/-- The static configuration of one training step (the static kwargs of
_train_step). -/
structure StepCfg where
  method : String
  lr : ℚ
  lissaKappa : ℚ
  mainBatchSize : ℕ
  covarianceBatchSize : ℕ
  weightBatchSize : ℕ
  estimateFeatureNorm : Bool
  useTabularGradient : Bool

/-- External collaborators used by _train_step, abstracted as functions:
sampleStates models utils.sample_discrete_states (closed over num_states),
taskOf models jax.random.choice over num_tasks, naiveInvCov and lissaInvCov
model the two estimators of the estimates module (which also receive the
sampler; here it is closed over), maxFeatureNorm models
utils.compute_max_feature_norm. -/
structure StepEnv (S T d : ℕ) where
  sampleStates : Key → (k : ℕ) → (Fin k → Fin S) × Key
  taskOf : Key → Fin T
  naiveInvCov : Matrix (Fin S) (Fin d) ℚ → Key → ℕ → Matrix (Fin d) (Fin d) ℚ × Key
  lissaInvCov : Matrix (Fin S) (Fin d) ℚ → Key → ℕ → ℚ → Matrix (Fin d) (Fin d) ℚ × Key
  maxFeatureNorm : (k : ℕ) → (Fin k → Fin d → ℚ) → ℚ

/-- An optax-style optimizer update: gradient and optimizer state in,
updates (to be added to Phi) and new optimizer state out. -/
def OptFn (S d : ℕ) (σ : Type) :=
  Matrix (Fin S) (Fin d) ℚ → σ → Matrix (Fin S) (Fin d) ℚ × σ

/-- The variable kwargs threaded through the loop by train(). -/
structure VarState (S T d : ℕ) (σ : Type) where
  Phi : Matrix (Fin S) (Fin d) ℚ
  estimatedFeatureNorm : ℚ
  explicitWeightMatrix : Matrix (Fin d) (Fin T) ℚ
  key : Key
  optState : σ

/-- The dict returned by _train_step: the new variable kwargs plus the
gradient (which train() pops). -/
structure StepOut (S T d : ℕ) (σ : Type) extends VarState S T d σ where
  gradient : Matrix (Fin S) (Fin d) ℚ

/-- source_states, key = sample_states(key, main_batch_size). -/
def stepSourceStates (env : StepEnv S T d) (B : ℕ) (key : Key) : Fin B → Fin S :=
  (env.sampleStates key B).1

/-- The key after drawing the source states. -/
def stepKey1 (env : StepEnv S T d) (B : ℕ) (key : Key) : Key :=
  (env.sampleStates key B).2

/-- task = jax.random.choice(task_key, num_tasks, (1,)) where
task_key, key = jax.random.split(key). -/
def stepTask (env : StepEnv S T d) (B : ℕ) (key : Key) : Fin T :=
  env.taskOf (krSplit (stepKey1 env B key)).1

/-- The key after drawing source states and splitting off the task key. -/
def stepKey2 (env : StepEnv S T d) (B : ℕ) (key : Key) : Key :=
  (krSplit (stepKey1 env B key)).2

/-- features = Phi[source_states, :]. -/
def stepFeatures (env : StepEnv S T d) (B : ℕ) (key : Key)
    (Phi : Matrix (Fin S) (Fin d) ℚ) : Fin B → Fin d → ℚ :=
  fun i j => Phi (stepSourceStates env B key i) j

/-- The inverse of a square rational matrix through the adjugate.  This is
the shallow embedding of jnp.linalg.pinv as used on Phi.T @ Phi in the
oracle branch: for an invertible argument (Phi of full column rank) the
Moore-Penrose pseudo-inverse and this inverse coincide, and the claims only
address that case. -/
def gramInv (A : Matrix (Fin d) (Fin d) ℚ) : Matrix (Fin d) (Fin d) ℚ :=
  A.det⁻¹ • A.adjugate

/-- The data produced by the covariance/weight-state stage of _train_step
for the implicit (non-explicit) methods: two inverse-covariance estimates,
two weight-state batches, and the PRNG key after the stage. -/
structure WeightInfo (S d : ℕ) where
  cov1 : Matrix (Fin d) (Fin d) ℚ
  cov2 : Matrix (Fin d) (Fin d) ℚ
  n1 : ℕ
  ws1 : Fin n1 → Fin S
  n2 : ℕ
  ws2 : Fin n2 → Fin S
  key : Key

/-- Lines 260-313 of run_synthetic.py: how each implicit method produces its
two inverse-covariance estimates and weight-state batches.  An unrecognized
method assigns none of them, so line 317 raises UnboundLocalError. -/
def implicitWeightInfo (env : StepEnv S T d) (method : String) (J W : ℕ)
    (kappa : ℚ) (Phi : Matrix (Fin S) (Fin d) ℚ) (key : Key) :
    Except String (WeightInfo S d) :=
  if method = "oracle" then
    .ok ⟨(S : ℚ) • gramInv (Phi.transpose * Phi), (S : ℚ) • gramInv (Phi.transpose * Phi),
      S, fun i => i, S, fun i => i, key⟩
  else if method = "naive" then
    let c := env.naiveInvCov Phi key J
    let w := env.sampleStates c.2 W
    .ok ⟨c.1, c.1, W, w.1, W, w.1, w.2⟩
  else if method = "naive++" then
    let c1 := env.naiveInvCov Phi key J
    let c2 := env.naiveInvCov Phi c1.2 J
    let w1 := env.sampleStates c2.2 W
    let w2 := env.sampleStates w1.2 W
    .ok ⟨c1.1, c2.1, W, w1.1, W, w2.1, w2.2⟩
  else if method = "lissa" then
    let c1 := env.lissaInvCov Phi key J kappa
    let c2 := env.lissaInvCov Phi c1.2 J kappa
    let w1 := env.sampleStates c2.2 W
    let w2 := env.sampleStates w1.2 W
    .ok ⟨c1.1, c2.1, W, w1.1, W, w2.1, w2.2⟩
  else .error "UnboundLocalError: covariance_1"

/-- Lines 317-320: weight = (covariance @ Phi[weight_states, :].T
@ compute_psi(weight_states, task)) / len(weight_states), written as the
entrywise sums the jnp expression computes. -/
def weightVec (Phi : Matrix (Fin S) (Fin d) ℚ) (psi : Fin S → Fin T → ℚ)
    (task : Fin T) (cov : Matrix (Fin d) (Fin d) ℚ) (ws : Fin n → Fin S) :
    Fin d → ℚ :=
  fun j => (∑ i, (∑ j', cov j j' * Phi (ws i) j') * psi (ws i) task) / (n : ℚ)

/-- The weight formula as the specification states it:
weight = (invCov @ Phi[states]^t @ targets(states, task)) / number of states,
written with the Mathlib matrix operations. -/
def specWeight (Phi : Matrix (Fin S) (Fin d) ℚ) (psi : Fin S → Fin T → ℚ)
    (task : Fin T) (cov : Matrix (Fin d) (Fin d) ℚ) (ws : Fin n → Fin S) :
    Fin d → ℚ :=
  ((n : ℚ))⁻¹ • Matrix.mulVec (cov * (Phi.submatrix ws id).transpose) (fun i => psi (ws i) task)

/-- Lines 252-320: the two weight vectors of one step.  The explicit method
reads both from the explicit weight matrix column of the sampled task; the
implicit methods combine the stage data through weightVec.  Also returns
the key after the stage. -/
def stepWeights (env : StepEnv S T d) (method : String) (J W : ℕ) (kappa : ℚ)
    (Phi : Matrix (Fin S) (Fin d) ℚ) (psi : Fin S → Fin T → ℚ) (task : Fin T)
    (ewm : Matrix (Fin d) (Fin T) ℚ) (key : Key) :
    Except String ((Fin d → ℚ) × (Fin d → ℚ) × Key) :=
  if method = "explicit" then
    .ok (fun j => ewm j task, fun j => ewm j task, key)
  else
    Except.map
      (fun info => (weightVec Phi psi task info.cov1 info.ws1,
        weightVec Phi psi task info.cov2 info.ws2, info.key))
      (implicitWeightInfo env method J W kappa Phi key)

/-- The index whose write survives in gradient.at[source_states, :].set:
scanning the batch in order, the last i with source_states i = s. -/
def lastWrite (ss : Fin B → Fin S) (s : Fin S) : Option (Fin B) :=
  (List.finRange B).foldl (fun acc i => if ss i = s then some i else acc) none

/-- Lines 326-343, the tabular gradient path: tile weight_2 over the batch,
scale row i by estimated_error i, scatter into a zero matrix at the sampled
rows (for a duplicated index the last write survives). -/
def tabularGradient (ss : Fin B → Fin S) (err : Fin B → ℚ) (w2 : Fin d → ℚ) :
    Matrix (Fin S) (Fin d) ℚ :=
  fun s j =>
    match lastWrite ss s with
    | some i => w2 j * err i
    | none => 0

/-- Lines 344-353, the pullback path: outer(estimated_error, weight_2)
pulled back through the vjp of Phi_ -> Phi_[source_states, :], which is the
transpose of the gather, i.e. a scatter-add. -/
def pullbackGradient (ss : Fin B → Fin S) (err : Fin B → ℚ) (w2 : Fin d → ℚ) :
    Matrix (Fin S) (Fin d) ℚ :=
  fun s j => ∑ i, if ss i = s then err i * w2 j else 0

/-- Lines 244-248: when the method is lissa and estimate_feature_norm is on,
the running feature-norm estimate moves by 0.01 of the gap to the observed
max norm of the sampled source-state features; otherwise it is unchanged. -/
def stepNewNorm (env : StepEnv S T d) (cfg : StepCfg)
    (Phi : Matrix (Fin S) (Fin d) ℚ) (estNorm : ℚ) (key : Key) : ℚ :=
  if cfg.method = "lissa" ∧ cfg.estimateFeatureNorm then
    estNorm + (1 / 100) *
      (env.maxFeatureNorm cfg.mainBatchSize (stepFeatures env cfg.mainBatchSize key Phi) - estNorm)
  else estNorm

/-- Lines 322-372 given the two weight vectors: prediction and error at the
source states, the gradient (tabular or pullback), the optimizer update of
Phi, and (for the explicit method) the update of the sampled task column of
the explicit weight matrix using the post-update Phi. -/
def stepFinish (env : StepEnv S T d) (opt : OptFn S d σ) (cfg : StepCfg)
    (psi : Fin S → Fin T → ℚ) (st : VarState S T d σ)
    (w : (Fin d → ℚ) × (Fin d → ℚ) × Key) : StepOut S T d σ :=
  let ss := stepSourceStates env cfg.mainBatchSize st.key
  let task := stepTask env cfg.mainBatchSize st.key
  let estimatedError : Fin cfg.mainBatchSize → ℚ :=
    fun i => (∑ j, st.Phi (ss i) j * w.1 j) - psi (ss i) task
  let gradient :=
    if cfg.useTabularGradient then tabularGradient ss estimatedError w.2.1
    else pullbackGradient ss estimatedError w.2.1
  let u := opt gradient st.optState
  let Phi' := st.Phi + u.1
  let ewm' :=
    if cfg.method = "explicit" then
      fun j t =>
        if t = task then
          st.explicitWeightMatrix j t -
            cfg.lr * (∑ i, Phi' (ss i) j * estimatedError i)
        else st.explicitWeightMatrix j t
    else st.explicitWeightMatrix
  ⟨⟨Phi', stepNewNorm env cfg st.Phi st.estimatedFeatureNorm st.key, ewm',
    w.2.2, u.2⟩, gradient⟩

/-- The whole of _train_step: sample source states and a task, update the
feature-norm estimate, compute the two weight vectors (failing for an
unrecognized method), and finish the step. -/
def trainStepE (env : StepEnv S T d) (opt : OptFn S d σ) (cfg : StepCfg)
    (psi : Fin S → Fin T → ℚ) (st : VarState S T d σ) :
    Except String (StepOut S T d σ) :=
  Except.map (stepFinish env opt cfg psi st)
    (stepWeights env cfg.method cfg.covarianceBatchSize cfg.weightBatchSize
      cfg.lissaKappa st.Phi psi (stepTask env cfg.mainBatchSize st.key)
      st.explicitWeightMatrix (stepKey2 env cfg.mainBatchSize st.key))

/-- _train_step as train() uses it: the gradient is popped off the result. -/
def fullStep (env : StepEnv S T d) (opt : OptFn S d σ) (cfg : StepCfg)
    (psi : Fin S → Fin T → ℚ) (st : VarState S T d σ) :
    Except String (VarState S T d σ) :=
  Except.map StepOut.toVarState (trainStepE env opt cfg psi st)

/-- optax.sgd(lr): updates = -lr * gradient, no optimizer state. -/
def sgdUpdate (lr : ℚ) : OptFn S d Unit := fun g s => ((-lr) • g, s)

/-- The estimated error of the explicit method (weight_1 is the sampled
task column of the explicit weight matrix). -/
def explicitErrorOf (env : StepEnv S T d) (B : ℕ)
    (Phi : Matrix (Fin S) (Fin d) ℚ) (psi : Fin S → Fin T → ℚ)
    (ewm : Matrix (Fin d) (Fin T) ℚ) (key : Key) : Fin B → ℚ :=
  fun i =>
    (∑ j, Phi (stepSourceStates env B key i) j * ewm j (stepTask env B key)) -
      psi (stepSourceStates env B key i) (stepTask env B key)

/-- The feature-matrix gradient of the explicit method. -/
def explicitGradientOf (env : StepEnv S T d) (cfg : StepCfg)
    (Phi : Matrix (Fin S) (Fin d) ℚ) (psi : Fin S → Fin T → ℚ)
    (ewm : Matrix (Fin d) (Fin T) ℚ) (key : Key) : Matrix (Fin S) (Fin d) ℚ :=
  if cfg.useTabularGradient then
    tabularGradient (stepSourceStates env cfg.mainBatchSize key)
      (explicitErrorOf env cfg.mainBatchSize Phi psi ewm key)
      (fun j => ewm j (stepTask env cfg.mainBatchSize key))
  else
    pullbackGradient (stepSourceStates env cfg.mainBatchSize key)
      (explicitErrorOf env cfg.mainBatchSize Phi psi ewm key)
      (fun j => ewm j (stepTask env cfg.mainBatchSize key))

/-- The post-optimizer-update Phi of the explicit method, used by the
explicit weight update (line 360 reads Phi after optax.apply_updates). -/
def explicitNewPhiOf (env : StepEnv S T d) (opt : OptFn S d σ) (cfg : StepCfg)
    (psi : Fin S → Fin T → ℚ) (st : VarState S T d σ) : Matrix (Fin S) (Fin d) ℚ :=
  st.Phi + (opt (explicitGradientOf env cfg st.Phi psi st.explicitWeightMatrix st.key) st.optState).1

/-- Concrete fixtures for witnesses. -/
def phiOne : Matrix (Fin 1) (Fin 1) ℚ := fun _ _ => 1

def psiOne : Fin 1 → Fin 1 → ℚ := fun _ _ => 1

def ewmOne : Matrix (Fin 1) (Fin 1) ℚ := fun _ _ => 1

def testEnv : StepEnv 1 1 1 :=
  ⟨fun k _ => (fun _ => 0, k + 1), fun _ => 0,
    fun _ k _ => (fun _ _ => 1, k + 1), fun _ k _ _ => (fun _ _ => 1, k + 1),
    fun _ _ => 1⟩

/-- An environment whose naive and lissa estimators depend on the key, to
exhibit that independently re-sampled estimates can differ. -/
def diffEnv : StepEnv 1 1 1 :=
  ⟨fun k _ => (fun _ => 0, k + 1), fun _ => 0,
    fun _ k _ => (fun _ _ => (k : ℚ), k + 1), fun _ k _ _ => (fun _ _ => (k : ℚ), k + 1),
    fun _ _ => 0⟩

def cfgBase : StepCfg := ⟨"explicit", 1 / 100, 19 / 10, 1, 1, 1, true, true⟩

def stOne : VarState 1 1 1 Unit := ⟨phiOne, 0, ewmOne, 0, ()⟩

/- Helper lemmas about the scatter semantics of the two gradient paths. -/

lemma foldl_write_no_hit (ss : Fin B → Fin S) (s : Fin S) :
    ∀ (l : List (Fin B)) (acc : Option (Fin B)), (∀ i ∈ l, ss i ≠ s) →
      l.foldl (fun acc i => if ss i = s then some i else acc) acc = acc := by
  intro l
  induction l with
  | nil => intro acc _; rfl
  | cons h t ih =>
    intro acc hno
    simp only [List.foldl_cons]
    rw [if_neg (hno h (List.mem_cons_self h t))]
    exact ih acc fun i hi => hno i (List.mem_cons_of_mem h hi)

lemma lastWrite_eq_none (ss : Fin B → Fin S) (s : Fin S) (hno : ∀ i, ss i ≠ s) :
    lastWrite ss s = none :=
  foldl_write_no_hit ss s (List.finRange B) none fun i _ => hno i

lemma foldl_write_unique_hit (ss : Fin B → Fin S) (s : Fin S) (i : Fin B)
    (hi : ss i = s) (huniq : ∀ i', ss i' = s → i' = i) :
    ∀ (l : List (Fin B)) (acc : Option (Fin B)), l.Nodup → i ∈ l →
      l.foldl (fun acc i => if ss i = s then some i else acc) acc = some i := by
  intro l
  induction l with
  | nil => intro acc _ hmem; exact absurd hmem (List.not_mem_nil i)
  | cons h t ih =>
    intro acc hnd hmem
    simp only [List.foldl_cons]
    rcases List.nodup_cons.mp hnd with ⟨hht, hndt⟩
    by_cases hh : h = i
    · subst hh
      rw [if_pos hi]
      exact foldl_write_no_hit ss s t (some h) fun i' hi' hss =>
        hht (huniq i' hss ▸ hi')
    · have hmem' : i ∈ t := by
        rcases List.mem_cons.mp hmem with h1 | h1
        · exact absurd h1.symm hh
        · exact h1
      have : ¬ ss h = s := fun hss => hh (huniq h hss)
      rw [if_neg this]
      exact ih acc hndt hmem'

lemma lastWrite_of_injective (ss : Fin B → Fin S) (hinj : Function.Injective ss)
    (i : Fin B) : lastWrite ss (ss i) = some i :=
  foldl_write_unique_hit ss (ss i) i rfl (fun _ h => hinj h)
    (List.finRange B) none (List.nodup_finRange B) (List.mem_finRange i)

lemma tabularGradient_row_of_not_sampled (ss : Fin B → Fin S) (err : Fin B → ℚ)
    (w2 : Fin d → ℚ) (s : Fin S) (hno : ∀ i, ss i ≠ s) :
    tabularGradient ss err w2 s = fun _ => 0 := by
  funext j
  simp only [tabularGradient, lastWrite_eq_none ss s hno]

lemma tabularGradient_row_of_injective (ss : Fin B → Fin S) (err : Fin B → ℚ)
    (w2 : Fin d → ℚ) (hinj : Function.Injective ss) (i : Fin B) :
    tabularGradient ss err w2 (ss i) = fun j => w2 j * err i := by
  funext j
  simp only [tabularGradient, lastWrite_of_injective ss hinj i]

lemma pullbackGradient_row_of_not_sampled (ss : Fin B → Fin S) (err : Fin B → ℚ)
    (w2 : Fin d → ℚ) (s : Fin S) (hno : ∀ i, ss i ≠ s) :
    pullbackGradient ss err w2 s = fun _ => 0 := by
  funext j
  exact Finset.sum_eq_zero fun i _ => if_neg (hno i)

lemma pullbackGradient_row_of_injective (ss : Fin B → Fin S) (err : Fin B → ℚ)
    (w2 : Fin d → ℚ) (hinj : Function.Injective ss) (i : Fin B) :
    pullbackGradient ss err w2 (ss i) = fun j => err i * w2 j := by
  funext j
  simp only [pullbackGradient]
  rw [Finset.sum_eq_single i]
  · rw [if_pos rfl]
  · intro i' _ hne
    exact if_neg fun h => hne (hinj h)
  · intro h
    exact absurd (Finset.mem_univ i) h

lemma tabular_eq_pullback_of_injective (ss : Fin B → Fin S) (err : Fin B → ℚ)
    (w2 : Fin d → ℚ) (hinj : Function.Injective ss) :
    tabularGradient ss err w2 = pullbackGradient ss err w2 := by
  funext s j
  by_cases hs : ∃ i, ss i = s
  · obtain ⟨i, rfl⟩ := hs
    rw [tabularGradient_row_of_injective ss err w2 hinj i,
      pullbackGradient_row_of_injective ss err w2 hinj i]
    exact mul_comm _ _
  · push_neg at hs
    rw [tabularGradient_row_of_not_sampled ss err w2 s hs,
      pullbackGradient_row_of_not_sampled ss err w2 s hs]

/- Helper lemmas about the training loop. -/

lemma runLoop_char (lp cp : ℕ) (n : ℕ) :
    ∃ st : LoopSt ℕ ℕ,
      runLoop (fun b => .ok (Nat.succ b)) id lp cp ⟨0, 0, [0], []⟩ n = .ok st ∧
      st.cur = n ∧ st.localPhi = lp * (n / lp) ∧
      ∀ c : ℕ, 0 < c → c ≤ n → c % cp = 0 → (c, lp * (c / lp)) ∈ st.saved := by
  induction n with
  | zero =>
    refine ⟨⟨0, 0, [0], []⟩, rfl, rfl, by simp, ?_⟩
    intro c hc hcle _
    omega
  | succ n ih =>
    obtain ⟨st, hrun, hcur, hloc, hsav⟩ := ih
    have hlphi : (if (n + 1) % lp = 0 then id (Nat.succ st.cur) else st.localPhi) =
        lp * ((n + 1) / lp) := by
      by_cases hdvd : (n + 1) % lp = 0
      · rw [if_pos hdvd, hcur, id_eq]
        exact (Nat.mul_div_cancel' (Nat.dvd_of_mod_eq_zero hdvd)).symm
      · rw [if_neg hdvd, hloc,
          Nat.succ_div_of_not_dvd fun h => hdvd (Nat.mod_eq_zero_of_dvd h)]
    refine ⟨⟨Nat.succ st.cur,
      if (n + 1) % lp = 0 then id (Nat.succ st.cur) else st.localPhi,
      if (n + 1) % lp = 0 then st.snapshots ++ [id (Nat.succ st.cur)] else st.snapshots,
      if (n + 1) % cp = 0 then
        st.saved ++ [(n + 1, if (n + 1) % lp = 0 then id (Nat.succ st.cur) else st.localPhi)]
      else st.saved⟩, ?_, by rw [hcur], hlphi, ?_⟩
    · rw [runLoop, hrun]
      rfl
    · intro c hc hcle hcp
      by_cases heq : c = n + 1
      · subst heq
        rw [if_pos hcp, hlphi]
        exact List.mem_append_right _ (List.mem_singleton.mpr rfl)
      · have hle : c ≤ n := by omega
        have hmem := hsav c hc hle hcp
        by_cases hcpd : (n + 1) % cp = 0
        · rw [if_pos hcpd]; exact List.mem_append_left _ hmem
        · rw [if_neg hcpd]; exact hmem

lemma runLoop_error_of_step_error (step : β → Except String β) (proj : β → α)
    (lp cp : ℕ) (st0 : LoopSt β α) (e : String)
    (hstep : ∀ b, step b = .error e) :
    ∀ n, 1 ≤ n → runLoop step proj lp cp st0 n = .error e := by
  intro n
  induction n with
  | zero => intro h; omega
  | succ n ih =>
    intro _
    rw [runLoop]
    rcases Nat.eq_zero_or_pos n with h0 | hpos
    · subst h0
      rw [runLoop]
      simp only [loopBody, hstep]
    · rw [ih hpos]

lemma runLoop_snapshots_extend (step : β → Except String β) (proj : β → α)
    (lp cp : ℕ) (st0 : LoopSt β α) :
    ∀ n st, runLoop step proj lp cp st0 n = .ok st →
      ∃ l, st.snapshots = st0.snapshots ++ l := by
  intro n
  induction n with
  | zero =>
    intro st h
    obtain rfl : st0 = st := by
      simpa only [runLoop, Except.ok.injEq] using h
    exact ⟨[], (List.append_nil _).symm⟩
  | succ n ih =>
    intro st h
    rw [runLoop] at h
    cases hrec : runLoop step proj lp cp st0 n with
    | error e => rw [hrec] at h; exact absurd h (by simp)
    | ok st1 =>
      rw [hrec] at h
      obtain ⟨l, hl⟩ := ih st1 hrec
      have h' : loopBody step proj lp cp st1 (n + 1) = .ok st := h
      unfold loopBody at h'
      cases hs : step st1.cur with
      | error e => rw [hs] at h'; exact absurd h' (by simp)
      | ok v =>
        rw [hs] at h'
        simp only [Except.ok.injEq] at h'
        subst h'
        by_cases hlog : (n + 1) % lp = 0
        · refine ⟨l ++ [proj v], ?_⟩
          simp only [if_pos hlog, hl, List.append_assoc]
        · exact ⟨l, by simp only [if_neg hlog, hl]⟩

lemma gramInv_eq_inv (A : Matrix (Fin d) (Fin d) ℚ) : gramInv A = A⁻¹ := by
  rw [Matrix.inv_def, Ring.inverse_eq_inv']
  rfl

lemma weightVec_eq_specWeight (Phi : Matrix (Fin S) (Fin d) ℚ)
    (psi : Fin S → Fin T → ℚ) (task : Fin T) (cov : Matrix (Fin d) (Fin d) ℚ)
    (ws : Fin n → Fin S) :
    weightVec Phi psi task cov ws = specWeight Phi psi task cov ws := by
  funext j
  simp only [weightVec, specWeight, Matrix.mulVec, Matrix.mul_apply,
    Matrix.dotProduct, Matrix.transpose_apply, Matrix.submatrix_apply,
    Pi.smul_apply, smul_eq_mul, id_eq, div_eq_mul_inv]
  rw [mul_comm]

lemma stepWeights_unknown_method (env : StepEnv S T d) (method : String)
    (J W : ℕ) (kappa : ℚ) (Phi : Matrix (Fin S) (Fin d) ℚ)
    (psi : Fin S → Fin T → ℚ) (task : Fin T) (ewm : Matrix (Fin d) (Fin T) ℚ)
    (key : Key)
    (hm1 : method ≠ "explicit") (hm2 : method ≠ "oracle") (hm3 : method ≠ "naive")
    (hm4 : method ≠ "naive++") (hm5 : method ≠ "lissa") :
    stepWeights env method J W kappa Phi psi task ewm key =
      .error "UnboundLocalError: covariance_1" := by
  rw [stepWeights, if_neg hm1, implicitWeightInfo,
    if_neg hm2, if_neg hm3, if_neg hm4, if_neg hm5]
  rfl

lemma trainStepE_unknown_method (env : StepEnv S T d) (opt : OptFn S d σ)
    (cfg : StepCfg) (psi : Fin S → Fin T → ℚ) (st : VarState S T d σ)
    (hm1 : cfg.method ≠ "explicit") (hm2 : cfg.method ≠ "oracle")
    (hm3 : cfg.method ≠ "naive") (hm4 : cfg.method ≠ "naive++")
    (hm5 : cfg.method ≠ "lissa") :
    trainStepE env opt cfg psi st = .error "UnboundLocalError: covariance_1" := by
  rw [trainStepE, stepWeights_unknown_method env cfg.method _ _ _ _ _ _ _ _
    hm1 hm2 hm3 hm4 hm5]
  rfl

/-- Claim C1, counterexample: with the duplicated source-state batch [0, 0]
(unit errors and weights) the tabular scatter keeps a single written row
(value 1) while the vjp pullback accumulates both contributions (value 2),
so the two gradient paths disagree. -/
theorem tabular_pullback_cex :
    tabularGradient (fun _ : Fin 2 => (0 : Fin 1)) (fun _ => (1 : ℚ))
        (fun _ : Fin 1 => (1 : ℚ)) ≠
      pullbackGradient (fun _ : Fin 2 => (0 : Fin 1)) (fun _ => (1 : ℚ))
        (fun _ : Fin 1 => (1 : ℚ)) := by
  intro h
  have h00 := congrFun (congrFun h 0) 0
  have hl : lastWrite (fun _ : Fin 2 => (0 : Fin 1)) 0 = some 1 := rfl
  simp only [tabularGradient, pullbackGradient, hl, Fin.sum_univ_two] at h00
  norm_num at h00

/-- Claim C1 (amended): when the sampled source states are pairwise
distinct, the tabular gradient path and the vjp pullback path produce the
same gradient matrix, and consequently _train_step with
use_tabular_gradient true and false produces identical outputs; with
duplicated source states the two paths may differ. -/
theorem tabular_pullback_equiv :
    (∀ (S d B : ℕ) (ss : Fin B → Fin S) (err : Fin B → ℚ) (w2 : Fin d → ℚ),
      Function.Injective ss →
        tabularGradient ss err w2 = pullbackGradient ss err w2) ∧
    (∀ (S T d : ℕ) (σ : Type) (env : StepEnv S T d) (opt : OptFn S d σ)
      (method : String) (lr kappa : ℚ) (B J W : ℕ) (eFN : Bool)
      (psi : Fin S → Fin T → ℚ) (st : VarState S T d σ),
      Function.Injective (stepSourceStates env B st.key) →
        trainStepE env opt ⟨method, lr, kappa, B, J, W, eFN, true⟩ psi st =
          trainStepE env opt ⟨method, lr, kappa, B, J, W, eFN, false⟩ psi st) := by
  constructor
  · intro S d B ss err w2 hinj
    exact tabular_eq_pullback_of_injective ss err w2 hinj
  · intro S T d σ env opt method lr kappa B J W eFN psi st hinj
    unfold trainStepE
    congr 1
    funext w
    simp only [stepFinish, stepNewNorm, if_true, if_false]
    rw [tabular_eq_pullback_of_injective _ _ _ hinj]
    simp only [ite_self]

/-- Witness for the amended claim C1 at concrete inputs. -/
theorem tabular_pullback_equiv_witness :
    (tabularGradient (fun _ : Fin 1 => (0 : Fin 1)) (fun _ => (2 : ℚ))
        (fun _ : Fin 1 => (3 : ℚ)) =
      pullbackGradient (fun _ : Fin 1 => (0 : Fin 1)) (fun _ => (2 : ℚ))
        (fun _ : Fin 1 => (3 : ℚ))) ∧
    (trainStepE testEnv (sgdUpdate (1 / 100))
        ⟨"explicit", 1 / 100, 19 / 10, 1, 1, 1, true, true⟩ psiOne stOne =
      trainStepE testEnv (sgdUpdate (1 / 100))
        ⟨"explicit", 1 / 100, 19 / 10, 1, 1, 1, true, false⟩ psiOne stOne) :=
  ⟨tabular_pullback_equiv.1 1 1 1 _ _ _ (by decide),
   tabular_pullback_equiv.2 1 1 1 Unit testEnv (sgdUpdate (1 / 100)) "explicit"
     (1 / 100) (19 / 10) 1 1 1 true psiOne stOne (by decide)⟩

/-- Claim C4, counterexample: for a batch with all-distinct source state
indices it is not true that the nonzero rows of the tabular gradient are
exactly the sampled rows: with a zero estimated error the sampled row is
zero as well. -/
theorem tabular_rows_cex :
    ¬ (∀ (S d B : ℕ) (ss : Fin B → Fin S) (err : Fin B → ℚ) (w2 : Fin d → ℚ),
      Function.Injective ss →
        ∀ s : Fin S, (tabularGradient ss err w2 s ≠ fun _ => 0) ↔ ∃ i, ss i = s) := by
  intro h
  have h2 := (h 1 1 1 (fun _ => 0) (fun _ => 0) (fun _ => 1)
    (fun a b _ => Subsingleton.elim a b) 0).mpr ⟨0, rfl⟩
  apply h2
  funext j
  have hl : lastWrite (fun _ : Fin 1 => (0 : Fin 1)) 0 = some 0 := rfl
  simp only [tabularGradient, hl, mul_zero]

/-- Claim C4 (amended): under the tabular gradient path every row whose
state is not among the sampled source states is zero, and for a batch with
all-distinct source state indices the row at sampled index i equals the
error-scaled weight vector w2 * err i (hence nonzero exactly at the sampled
indices whenever those scaled rows are nonzero). -/
theorem tabular_gradient_rows (S d B : ℕ) (ss : Fin B → Fin S)
    (err : Fin B → ℚ) (w2 : Fin d → ℚ) :
    (∀ s : Fin S, (∀ i, ss i ≠ s) → tabularGradient ss err w2 s = fun _ => 0) ∧
    (Function.Injective ss →
      ∀ i, tabularGradient ss err w2 (ss i) = fun j => w2 j * err i) :=
  ⟨fun s hno => tabularGradient_row_of_not_sampled ss err w2 s hno,
   fun hinj i => tabularGradient_row_of_injective ss err w2 hinj i⟩

/-- Witness for the amended claim C4 at concrete inputs. -/
theorem tabular_gradient_rows_witness :
    (tabularGradient (fun _ : Fin 1 => (0 : Fin 2)) (fun _ => (3 : ℚ))
        (fun _ : Fin 1 => (5 : ℚ)) 1 = fun _ => 0) ∧
    (tabularGradient (fun _ : Fin 1 => (0 : Fin 2)) (fun _ => (3 : ℚ))
        (fun _ : Fin 1 => (5 : ℚ)) ((fun _ : Fin 1 => (0 : Fin 2)) 0) =
      fun j => (fun _ : Fin 1 => (5 : ℚ)) j * (fun _ : Fin 1 => (3 : ℚ)) 0) :=
  ⟨(tabular_gradient_rows 2 1 1 _ _ _).1 1 (by decide),
   (tabular_gradient_rows 2 1 1 _ _ _).2 (by decide) 0⟩

/-- Claim C3: for every non-explicit method, each weight vector computed by
_train_step equals (invCov @ Phi[states].T @ targets(states, task)) / |states|,
the specification formula (specWeight), applied to the covariance estimate
and weight-state batch that the method produced. -/
theorem weight_solver_matches_spec (S T d : ℕ) (env : StepEnv S T d)
    (method : String) (J W : ℕ) (kappa : ℚ) (Phi : Matrix (Fin S) (Fin d) ℚ)
    (psi : Fin S → Fin T → ℚ) (task : Fin T) (ewm : Matrix (Fin d) (Fin T) ℚ)
    (key : Key)
    (hm : method = "oracle" ∨ method = "naive" ∨ method = "naive++" ∨
      method = "lissa") :
    stepWeights env method J W kappa Phi psi task ewm key =
      Except.map (fun info => (specWeight Phi psi task info.cov1 info.ws1,
        specWeight Phi psi task info.cov2 info.ws2, info.key))
        (implicitWeightInfo env method J W kappa Phi key) := by
  have hne : method ≠ "explicit" := by
    rcases hm with rfl | rfl | rfl | rfl <;> simp
  rw [stepWeights, if_neg hne]
  have hfun : (fun (info : WeightInfo S d) =>
      (weightVec Phi psi task info.cov1 info.ws1,
        weightVec Phi psi task info.cov2 info.ws2, info.key)) =
      (fun (info : WeightInfo S d) =>
        (specWeight Phi psi task info.cov1 info.ws1,
          specWeight Phi psi task info.cov2 info.ws2, info.key)) := by
    funext info
    rw [weightVec_eq_specWeight, weightVec_eq_specWeight]
  rw [hfun]

/-- Witness for claim C3 with the naive method at concrete inputs. -/
theorem weight_solver_matches_spec_witness :
    stepWeights testEnv "naive" 1 1 0 phiOne psiOne 0 ewmOne 0 =
      Except.map (fun info => (specWeight phiOne psiOne 0 info.cov1 info.ws1,
        specWeight phiOne psiOne 0 info.cov2 info.ws2, info.key))
        (implicitWeightInfo testEnv "naive" 1 1 0 phiOne 0) :=
  weight_solver_matches_spec 1 1 1 testEnv "naive" 1 1 0 phiOne psiOne 0 ewmOne 0
    (Or.inr (Or.inl rfl))

/-- Claim C5: with the oracle method the covariance stage returns, without
consuming the PRNG key, the same estimate num_states * pinv(Phi.T @ Phi)
for both weight vectors and uses all states 0..num_states-1 as weight
states; for Phi of full column rank (nonzero Gram determinant) that
estimate divided by num_states is the exact two-sided inverse of
Phi.T @ Phi, hence coincides with the Moore-Penrose pseudo-inverse. -/
theorem oracle_estimator_exact (S T d : ℕ) (env : StepEnv S T d) (J W : ℕ)
    (kappa : ℚ) (Phi : Matrix (Fin S) (Fin d) ℚ) (key : Key)
    (hdet : (Phi.transpose * Phi).det ≠ 0) :
    implicitWeightInfo env "oracle" J W kappa Phi key =
      .ok ⟨(S : ℚ) • gramInv (Phi.transpose * Phi),
        (S : ℚ) • gramInv (Phi.transpose * Phi),
        S, fun i => i, S, fun i => i, key⟩ ∧
    (Phi.transpose * Phi) * gramInv (Phi.transpose * Phi) = 1 ∧
    gramInv (Phi.transpose * Phi) * (Phi.transpose * Phi) = 1 := by
  refine ⟨rfl, ?_, ?_⟩
  · rw [gramInv_eq_inv]
    exact Matrix.mul_nonsing_inv _ (isUnit_iff_ne_zero.mpr hdet)
  · rw [gramInv_eq_inv]
    exact Matrix.nonsing_inv_mul _ (isUnit_iff_ne_zero.mpr hdet)

/-- Witness for claim C5 at a concrete full-column-rank Phi. -/
theorem oracle_estimator_exact_witness :
    (phiOne.transpose * phiOne).det ≠ 0 ∧
    (implicitWeightInfo testEnv "oracle" 1 1 0 phiOne 0 =
      .ok ⟨((1 : ℕ) : ℚ) • gramInv (phiOne.transpose * phiOne),
        ((1 : ℕ) : ℚ) • gramInv (phiOne.transpose * phiOne),
        1, fun i => i, 1, fun i => i, 0⟩ ∧
    (phiOne.transpose * phiOne) * gramInv (phiOne.transpose * phiOne) = 1 ∧
    gramInv (phiOne.transpose * phiOne) * (phiOne.transpose * phiOne) = 1) := by
  have hdet : (phiOne.transpose * phiOne).det ≠ 0 := by
    rw [Matrix.det_fin_one]
    simp [Matrix.mul_apply, phiOne]
  exact ⟨hdet, oracle_estimator_exact 1 1 1 testEnv 1 1 0 phiOne 0 hdet⟩

/-- Claim C9: for the explicit, oracle and naive methods the two weight
vectors of _train_step coincide (same covariance estimate and same
weight-state batch), while naive++ and lissa draw independent pairs that
can differ (exhibited on a key-dependent estimator environment). -/
theorem weights_equal_for_shared_estimates (S T d : ℕ) (env : StepEnv S T d)
    (method : String) (J W : ℕ) (kappa : ℚ) (Phi : Matrix (Fin S) (Fin d) ℚ)
    (psi : Fin S → Fin T → ℚ) (task : Fin T) (ewm : Matrix (Fin d) (Fin T) ℚ)
    (key : Key)
    (hm : method = "explicit" ∨ method = "oracle" ∨ method = "naive") :
    (Except.map (fun w => w.1) (stepWeights env method J W kappa Phi psi task ewm key) =
      Except.map (fun w => w.2.1) (stepWeights env method J W kappa Phi psi task ewm key)) ∧
    (Except.map (fun w => w.1) (stepWeights diffEnv "naive++" 1 1 0 phiOne psiOne 0 ewmOne 0) ≠
      Except.map (fun w => w.2.1) (stepWeights diffEnv "naive++" 1 1 0 phiOne psiOne 0 ewmOne 0)) ∧
    (Except.map (fun w => w.1) (stepWeights diffEnv "lissa" 1 1 0 phiOne psiOne 0 ewmOne 0) ≠
      Except.map (fun w => w.2.1) (stepWeights diffEnv "lissa" 1 1 0 phiOne psiOne 0 ewmOne 0)) := by
  refine ⟨?_, ?_, ?_⟩
  · rcases hm with rfl | rfl | rfl <;> rfl
  · intro h
    have hsw : stepWeights diffEnv "naive++" 1 1 0 phiOne psiOne 0 ewmOne 0 =
        Except.ok (weightVec phiOne psiOne 0 (fun _ _ => ((0 : ℕ) : ℚ)) (fun _ => 0),
          weightVec phiOne psiOne 0 (fun _ _ => ((1 : ℕ) : ℚ)) (fun _ => 0), 4) := rfl
    rw [hsw] at h
    simp only [Except.map, Except.ok.injEq, Prod.mk.injEq] at h
    have h0 := congrFun h 0
    simp only [weightVec, Fin.sum_univ_one, phiOne, psiOne, Nat.cast_zero,
      Nat.cast_one] at h0
    norm_num at h0
  · intro h
    have hsw : stepWeights diffEnv "lissa" 1 1 0 phiOne psiOne 0 ewmOne 0 =
        Except.ok (weightVec phiOne psiOne 0 (fun _ _ => ((0 : ℕ) : ℚ)) (fun _ => 0),
          weightVec phiOne psiOne 0 (fun _ _ => ((1 : ℕ) : ℚ)) (fun _ => 0), 4) := rfl
    rw [hsw] at h
    simp only [Except.map, Except.ok.injEq, Prod.mk.injEq] at h
    have h0 := congrFun h 0
    simp only [weightVec, Fin.sum_univ_one, phiOne, psiOne, Nat.cast_zero,
      Nat.cast_one] at h0
    norm_num at h0

/-- Witness for claim C9 with the naive method at concrete inputs. -/
theorem weights_equal_for_shared_estimates_witness :
    Except.map (fun w => w.1) (stepWeights testEnv "naive" 1 1 0 phiOne psiOne 0 ewmOne 0) =
      Except.map (fun w => w.2.1) (stepWeights testEnv "naive" 1 1 0 phiOne psiOne 0 ewmOne 0) :=
  (weights_equal_for_shared_estimates 1 1 1 testEnv "naive" 1 1 0 phiOne psiOne
    0 ewmOne 0 (Or.inr (Or.inr rfl))).1

/-- Claim C7: in an explicit-method step, every column of the explicit
weight matrix other than the sampled task column is returned unchanged, and
the sampled task column is updated by subtracting learning_rate times
Phi[source_states].T @ estimated_error (with Phi the post-optimizer-update
feature matrix, as in the source). -/
theorem explicit_updates_only_sampled_task (S T d : ℕ) (σ : Type)
    (env : StepEnv S T d) (opt : OptFn S d σ) (lr kappa : ℚ) (B J W : ℕ)
    (eFN tab : Bool) (psi : Fin S → Fin T → ℚ) (st : VarState S T d σ) :
    Except.map (fun o => o.explicitWeightMatrix)
        (trainStepE env opt ⟨"explicit", lr, kappa, B, J, W, eFN, tab⟩ psi st) =
      .ok (fun j t =>
        if t = stepTask env B st.key then
          st.explicitWeightMatrix j t -
            lr * (∑ i, explicitNewPhiOf env opt ⟨"explicit", lr, kappa, B, J, W, eFN, tab⟩
                psi st (stepSourceStates env B st.key i) j *
              explicitErrorOf env B st.Phi psi st.explicitWeightMatrix st.key i)
        else st.explicitWeightMatrix j t) := by
  rfl

/-- Witness for claim C7 at concrete inputs. -/
theorem explicit_updates_only_sampled_task_witness :
    Except.map (fun o => o.explicitWeightMatrix)
        (trainStepE testEnv (sgdUpdate (1 / 100))
          ⟨"explicit", 1 / 100, 19 / 10, 1, 1, 1, true, true⟩ psiOne stOne) =
      .ok (fun j t =>
        if t = stepTask testEnv 1 stOne.key then
          stOne.explicitWeightMatrix j t -
            (1 / 100) * (∑ i, explicitNewPhiOf testEnv (sgdUpdate (1 / 100))
                ⟨"explicit", 1 / 100, 19 / 10, 1, 1, 1, true, true⟩ psiOne stOne
                (stepSourceStates testEnv 1 stOne.key i) j *
              explicitErrorOf testEnv 1 stOne.Phi psiOne stOne.explicitWeightMatrix stOne.key i)
        else stOne.explicitWeightMatrix j t) :=
  explicit_updates_only_sampled_task 1 1 1 Unit testEnv (sgdUpdate (1 / 100))
    (1 / 100) (19 / 10) 1 1 1 true true psiOne stOne

/-- Claim C8: in a lissa step with estimate_feature_norm enabled, the
running feature-norm estimate returned by _train_step is exactly
old + 0.01 * (observed_max_norm - old), where observed_max_norm is the max
feature norm of the sampled source-state features; this holds for every old
estimate and every observed value (every max-norm function). -/
theorem feature_norm_update_formula (S T d : ℕ) (σ : Type) (env : StepEnv S T d)
    (opt : OptFn S d σ) (lr kappa : ℚ) (B J W : ℕ) (tab : Bool)
    (psi : Fin S → Fin T → ℚ) (st : VarState S T d σ) :
    Except.map (fun o => o.estimatedFeatureNorm)
        (trainStepE env opt ⟨"lissa", lr, kappa, B, J, W, true, tab⟩ psi st) =
      .ok (st.estimatedFeatureNorm + (1 / 100) *
        (env.maxFeatureNorm B (stepFeatures env B st.key st.Phi) -
          st.estimatedFeatureNorm)) := by
  rfl

/-- Claim C2 (code bug): at num_epochs = 1234567 the checkpoint hook fires
at step 123456, which is not a logging step (log period 1234), and the pair
passed to chkpt_manager.save is (123456, Phi of step 123400): the hook
closure reads the Python local Phi, reassigned only at logging steps, so a
stale snapshot is saved.  Traced with the successor step function on
naturals, under which the live state after step n equals n. -/
theorem checkpoint_saves_stale_phi :
    ∃ st : LoopSt ℕ ℕ, trainNat Nat.succ 1234567 0 = .ok st ∧
      (123456, 123400) ∈ st.saved ∧ (123400 : ℕ) ≠ 123456 := by
  obtain ⟨st, hrun, hcur, hloc, hsav⟩ :=
    runLoop_char (logPeriod 1234567) (checkpointPeriod 1234567) 1234567
  refine ⟨st, hrun, ?_, by decide⟩
  have hmem := hsav 123456 (by decide) (by decide) (by decide)
  have heq : logPeriod 1234567 * (123456 / logPeriod 1234567) = 123400 := by decide
  rw [heq] at hmem
  exact hmem

/-- Claim C6: an unrecognized optimizer name makes train() fail with the
unknown-optimizer error before the loop starts (for every step function),
and an unrecognized method name makes _train_step fail with the
unbound-covariance error, so a training run with such a method fails on its
first step with no state change escaping. -/
theorem config_errors_fatal (ω β α : Type) (sgdImpl adamImpl : ω)
    (optName : String) (stepOf : ω → β → Except String β) (proj : β → α)
    (ne : ℕ) (st0 : β)
    (S T d : ℕ) (σ : Type) (env : StepEnv S T d) (optA optB : OptFn S d σ)
    (cfg : StepCfg) (psi : Fin S → Fin T → ℚ) (st : VarState S T d σ)
    (proj2 : VarState S T d σ → Matrix (Fin S) (Fin d) ℚ) (st2 : VarState S T d σ)
    (h1 : optName ≠ "sgd") (h2 : optName ≠ "adam")
    (hm1 : cfg.method ≠ "explicit") (hm2 : cfg.method ≠ "oracle")
    (hm3 : cfg.method ≠ "naive") (hm4 : cfg.method ≠ "naive++")
    (hm5 : cfg.method ≠ "lissa") (hne : 1 ≤ ne) :
    trainE sgdImpl adamImpl optName stepOf proj ne st0 =
      .error ("Unknown optimizer " ++ optName ++ ".") ∧
    trainStepE env optA cfg psi st = .error "UnboundLocalError: covariance_1" ∧
    trainE optA optB "sgd" (fun o s => fullStep env o cfg psi s) proj2 ne st2 =
      .error "UnboundLocalError: covariance_1" := by
  refine ⟨?_, trainStepE_unknown_method env optA cfg psi st hm1 hm2 hm3 hm4 hm5, ?_⟩
  · have hsel : selectOptimizer sgdImpl adamImpl optName =
        .error ("Unknown optimizer " ++ optName ++ ".") := by
      rw [selectOptimizer, if_neg h1, if_neg h2]
    unfold trainE
    rw [hsel]
  · show runLoop (fullStep env optA cfg psi) proj2 (logPeriod ne)
      (checkpointPeriod ne) ⟨st2, proj2 st2, [proj2 st2], []⟩ ne =
        .error "UnboundLocalError: covariance_1"
    refine runLoop_error_of_step_error _ _ _ _ _ _ ?_ ne hne
    intro b
    rw [fullStep, trainStepE_unknown_method env optA cfg psi b hm1 hm2 hm3 hm4 hm5]
    rfl

/-- Witness for claim C6 with optimizer name rmsprop and method name foo. -/
theorem config_errors_fatal_witness :
    (trainE (0 : ℕ) 0 "rmsprop" (fun _ n => .ok n) (id : ℕ → ℕ) 1 0 =
      .error ("Unknown optimizer " ++ "rmsprop" ++ ".")) ∧
    trainStepE testEnv (sgdUpdate (1 / 100))
        ⟨"foo", 1 / 100, 19 / 10, 1, 1, 1, true, true⟩ psiOne stOne =
      .error "UnboundLocalError: covariance_1" ∧
    trainE (sgdUpdate (1 / 100)) (sgdUpdate (1 / 100)) "sgd"
        (fun o s => fullStep testEnv o ⟨"foo", 1 / 100, 19 / 10, 1, 1, 1, true, true⟩ psiOne s)
        (fun v => v.Phi) 1 stOne =
      .error "UnboundLocalError: covariance_1" :=
  config_errors_fatal ℕ ℕ ℕ 0 0 "rmsprop" (fun _ n => .ok n) id 1 0
    1 1 1 Unit testEnv (sgdUpdate (1 / 100)) (sgdUpdate (1 / 100))
    ⟨"foo", 1 / 100, 19 / 10, 1, 1, 1, true, true⟩ psiOne stOne
    (fun v => v.Phi) stOne (by simp) (by simp) (by simp) (by simp) (by simp)
    (by simp) (by simp) (by simp)

/-- Claim C10: the caller-supplied Phi is never mutated (train() copies it;
in this pure embedding the input is a value) and the first snapshot of the
returned trajectory is the initial Phi, before any gradient step. -/
theorem train_first_snapshot_initial (ω β α : Type) (sgdImpl adamImpl : ω)
    (optName : String) (stepOf : ω → β → Except String β) (proj : β → α)
    (ne : ℕ) (st0 : β) (st : LoopSt β α)
    (h : trainE sgdImpl adamImpl optName stepOf proj ne st0 = .ok st) :
    st.snapshots.head? = some (proj st0) := by
  unfold trainE at h
  cases hsel : selectOptimizer sgdImpl adamImpl optName with
  | error e => rw [hsel] at h; exact absurd h (by simp)
  | ok opt =>
    rw [hsel] at h
    obtain ⟨l, hl⟩ := runLoop_snapshots_extend (stepOf opt) proj
      (logPeriod ne) (checkpointPeriod ne) ⟨st0, proj st0, [proj st0], []⟩ ne st h
    rw [hl]
    rfl

/-- Witness for claim C10 on a zero-epoch run. -/
theorem train_first_snapshot_initial_witness :
    (⟨(0 : ℕ), (0 : ℕ), [0], []⟩ : LoopSt ℕ ℕ).snapshots.head? = some (id (0 : ℕ)) :=
  train_first_snapshot_initial Unit ℕ ℕ () () "sgd" (fun _ n => .ok (n + 1)) id
    0 0 ⟨0, 0, [0], []⟩ rfl
